import Mathlib

/-!
Shallow embedding of the diagnostics-driven text-patching engine of
TR41-GroundCTRL: `helper_scripts/use_new_syntax.py` (canonical Tailwind
class rewriter) and `helper_scripts/fix_indentation.py` (ESLint
indentation fixer).  Python strings are modelled as `List Char`,
file systems as association lists from path to content.
-/

namespace GroundCTRL

/-! ### Python string primitives -/

/-- Clamped slice bound: Python's interpretation of a (possibly negative)
slice index against a sequence of length `n`. -/
def pyBound (n : Nat) (i : Int) : Nat :=
  if i < 0 then ((n : Int) + i).toNat else min i.toNat n

/-- Python `s[:b]`. -/
def pySliceTo (s : List Char) (b : Int) : List Char :=
  s.take (pyBound s.length b)

/-- Python `s[a:]`. -/
def pySliceFrom (s : List Char) (a : Int) : List Char :=
  s.drop (pyBound s.length a)

/-- Python `s[a:b]`. -/
def pySlice (s : List Char) (a b : Int) : List Char :=
  (s.take (pyBound s.length b)).drop (pyBound s.length a)

/-- Python `needle in hay` (substring containment). -/
def hasSub (hay needle : List Char) : Bool :=
  if hay.take needle.length = needle then true
  else
    match hay with
    | [] => false
    | _ :: rest => hasSub rest needle

/-- Universal-newline translation performed by `Path.read_text` /
text-mode reads with `newline=None`: `\r\n` and lone `\r` become `\n`. -/
def universalNewlines : List Char → List Char
  | [] => []
  | '\r' :: '\n' :: rest => '\n' :: universalNewlines rest
  | '\r' :: rest => '\n' :: universalNewlines rest
  | c :: rest => c :: universalNewlines rest

/-- Line-break characters recognised by Python `str.splitlines`
(`\r` handled separately so that `\r\n` counts as one break). -/
def isLineBreakChar (c : Char) : Bool :=
  c = '\n' || c = '\r' || c = '\x0b' || c = '\x0c' ||
  c = '\x1c' || c = '\x1d' || c = '\x1e' || c = '\x85' ||
  c = '\u2028' || c = '\u2029'

/-- Python `str.splitlines()` (terminators removed, no trailing empty
piece). -/
def pySplitlines : List Char → List (List Char)
  | [] => []
  | '\r' :: '\n' :: rest => [] :: pySplitlines rest
  | c :: rest =>
    if isLineBreakChar c then [] :: pySplitlines rest
    else
      match pySplitlines rest with
      | [] => [[c]]
      | l :: ls => (c :: l) :: ls

/-- Line splitting done by `readlines()` in text mode with `newline=''`:
universal newlines are recognised (`\n`, `\r`, `\r\n`) but returned
untranslated, each line keeping its terminator. -/
def splitKeepEnds : List Char → List (List Char)
  | [] => []
  | '\r' :: '\n' :: rest => ['\r', '\n'] :: splitKeepEnds rest
  | c :: rest =>
    if c = '\n' ∨ c = '\r' then [c] :: splitKeepEnds rest
    else
      match splitKeepEnds rest with
      | [] => [[c]]
      | l :: ls => (c :: l) :: ls

/-- Model of `'\n'.join(lines) + '\n'` — the content written back by the
canonical-class rewriter. -/
def writeLines (lines : List (List Char)) : List Char :=
  List.intercalate ['\n'] lines ++ ['\n']

/-- Match a literal string at the front; on success return the rest. -/
def dropLit (lit : String) (s : List Char) : Option (List Char) :=
  if s.take lit.data.length = lit.data then some (s.drop lit.data.length)
  else none

/-- Numeric value of a run of decimal digits (`int()` on a `\d+` group). -/
def digitsToNat (ds : List Char) : Nat :=
  ds.foldl (fun n c => 10 * n + (c.toNat - '0'.toNat)) 0

/-- Whitespace class `\s` (ASCII part; the diagnostic messages involved
contain only plain spaces). -/
def isPySpace (c : Char) : Bool :=
  c = ' ' || c = '\t' || c = '\n' || c = '\r' || c = '\x0b' || c = '\x0c'

/-! ### `use_new_syntax.py` — canonical-class rewriter -/

/-- Model of `re.match(r'^/[a-zA-Z]:/', raw_resource)` — URI-like path with a
leading slash before a drive letter. -/
def matchesDrivePattern (r : List Char) : Bool :=
  match r with
  | '/' :: c :: ':' :: '/' :: _ => c.isAlpha
  | _ => false

/-- Path normalisation in `parse_fixes` (`use_new_syntax.py` lines
17–21): strip the leading slashes iff the drive-letter pattern matches.
(The subsequent `Path(...)` wrapping is the identity on these strings.) -/
def normalizeTwResource (r : List Char) : List Char :=
  if matchesDrivePattern r then r.dropWhile (· = '/') else r

/-- Attempt the rewrite-message pattern
``r'`([^`]+)`\s+(?:can be written as|→)\s+`([^`]+)`'`` anchored at the
start of `s`; returns the two captured groups. -/
def matchRewriteAt (s : List Char) : Option (List Char × List Char) :=
  match s with
  | '`' :: r1 =>
    let g1 := r1.takeWhile (· ≠ '`')
    if g1 = [] then none else
    match r1.dropWhile (· ≠ '`') with
    | '`' :: r2 =>
      let ws1 := r2.takeWhile isPySpace
      if ws1 = [] then none else
      let r3 := r2.dropWhile isPySpace
      match (dropLit "can be written as" r3).orElse (fun _ => dropLit "→" r3) with
      | none => none
      | some r4 =>
        let ws2 := r4.takeWhile isPySpace
        if ws2 = [] then none else
        match r4.dropWhile isPySpace with
        | '`' :: r5 =>
          let g2 := r5.takeWhile (· ≠ '`')
          if g2 = [] then none else
          match r5.dropWhile (· ≠ '`') with
          | '`' :: _ => some (g1, g2)
          | _ => none
        | _ => none
    | _ => none
  | _ => none

/-- Model of `re.search` of the rewrite pattern: try every start position, first
match wins. -/
def searchRewrite : List Char → Option (List Char × List Char)
  | [] => none
  | c :: rest => (matchRewriteAt (c :: rest)).orElse (fun _ => searchRewrite rest)

/-- One raw diagnostic entry as consumed by `use_new_syntax.py`.  A
`none` field models a JSON object missing that key (`problem['k']`
raises `KeyError`, `problem.get('k')` yields `None`). -/
structure TwProblem where
  owner : Option String
  code : Option String
  resource : Option (List Char)
  message : Option (List Char)
  startLineNumber : Option Int
  startColumn : Option Int
  endColumn : Option Int
  deriving DecidableEq

/-- A parsed fix, after the 1-based → 0-based conversion done in
`parse_fixes`. -/
structure Fix where
  resource : List Char
  line : Int
  colStart : Int
  colEnd : Int
  oldClass : List Char
  newClass : List Char
  deriving DecidableEq

/-- Loop body of `parse_fixes` (`use_new_syntax.py` lines 12–32); `.error ()`
models an uncaught `KeyError` escaping the loop. -/
def parseFixesAux (acc : List Fix) : List TwProblem → Except Unit (List Fix)
  | [] => .ok acc
  | p :: rest =>
    if p.owner = some "tailwindcss-intellisense" ∧
       p.code = some "suggestCanonicalClasses" then
      match p.resource with
      | none => .error ()
      | some rawResource =>
        let resource := normalizeTwResource rawResource
        match p.message with
        | none => .error ()
        | some msg =>
          match searchRewrite msg with
          | some (oldClass, newClass) =>
            match p.startLineNumber, p.startColumn, p.endColumn with
            | some l, some cs, some ce =>
              parseFixesAux
                (acc ++ [⟨resource, l - 1, cs - 1, ce - 1, oldClass, newClass⟩]) rest
            | _, _, _ => .error ()
          | none => parseFixesAux acc rest
    else parseFixesAux acc rest

/-- Model of `parse_fixes(problems_json_path)` given the decoded problem list. -/
def parseFixes (problems : List TwProblem) : Except Unit (List Fix) :=
  parseFixesAux [] problems

/-- Core of `apply_fix` (`use_new_syntax.py` lines 42–52) on the decoded
line list: `some newLines` iff the edit is applied (and the file then
rewritten); `none` iff the edit is skipped and the file untouched. -/
def applyFix (lines : List (List Char)) (fx : Fix) : Option (List (List Char)) :=
  if 0 ≤ fx.line ∧ fx.line < (lines.length : Int) then
    if fx.colStart < ((lines.getD fx.line.toNat []).length : Int) ∧
       fx.colEnd ≤ ((lines.getD fx.line.toNat []).length : Int) then
      if hasSub (pySlice (lines.getD fx.line.toNat []) fx.colStart fx.colEnd)
          fx.oldClass then
        some (lines.set fx.line.toNat
          (pySliceTo (lines.getD fx.line.toNat []) fx.colStart ++ fx.newClass ++
            pySliceFrom (lines.getD fx.line.toNat []) fx.colEnd))
      else none
    else none
  else none

/-- Model of `apply_fix` at the file-content level: `read_text()` (universal
newlines) → `splitlines()` → splice → `write_text('\n'.join(lines)+'\n')`.
`some written` is the content written back; `none` means no write. -/
def applyFixContent (content : List Char) (fx : Fix) : Option (List Char) :=
  (applyFix (pySplitlines (universalNewlines content)) fx).map writeLines

/-- Net effect of one `apply_fix` call on the file's content. -/
def runFix (content : List Char) (fx : Fix) : List Char :=
  (applyFixContent content fx).getD content

/-- The `__main__` loop of `use_new_syntax.py` (lines 77–78) restricted
to one file: fixes are applied one after another, each re-reading the
content left by the previous one, in the order they appear in the
diagnostics document. -/
def runFixes (content : List Char) (fxs : List Fix) : List Char :=
  fxs.foldl runFix content

/-! ### `fix_indentation.py` — ESLint indentation fixer -/

/-- Model of `parse_indentation_message` (`fix_indentation.py` lines 19–32):
`re.match(r'Expected indentation of (\d+) spaces but found (\d+)\.', m)`,
a prefix match with greedy digit groups. -/
def parseIndentationMessage (msg : List Char) : Option (Nat × Nat) :=
  match dropLit "Expected indentation of " msg with
  | none => none
  | some r1 =>
    let d1 := r1.takeWhile Char.isDigit
    if d1 = [] then none else
    match dropLit " spaces but found " (r1.dropWhile Char.isDigit) with
    | none => none
    | some r2 =>
      let d2 := r2.takeWhile Char.isDigit
      if d2 = [] then none else
      match r2.dropWhile Char.isDigit with
      | '.' :: _ => some (digitsToNat d1, digitsToNat d2)
      | _ => none

/-- One raw diagnostic entry as consumed by `fix_indentation.py`.
`codeValue` is `problem.get('code', {}).get('value')`; the other fields
are read with `.get`, so a missing key turns into `none`. -/
structure RawProblem where
  codeValue : Option String
  resource : Option (List Char)
  message : Option (List Char)
  startLineNumber : Option Int
  deriving DecidableEq

/-- A grouped indentation problem (`fix_indentation.py` lines 79–84):
`line` keeps the possibly-missing `startLineNumber` (`None` in Python). -/
structure IndentProblem where
  line : Option Int
  expected : Nat
  found : Nat
  deriving DecidableEq

/-- Path handling in `group_indentation_problems` (lines 61–66): the
`/K:` prefix is rewritten to `K:` (only for drive letter `K`), then every
`'/'` is replaced by `os.sep` (a parameter here). -/
def normalizeIndentResource (sep : Char) (resource : List Char) : List Char :=
  (if resource.take 3 = ['/', 'K', ':'] then ['K', ':'] ++ resource.drop 3
   else resource).map (fun c => if c = '/' then sep else c)

/-- The per-file grouping is an ordered association list (Python dicts
preserve first-insertion order); a new problem is appended to its file's
list. -/
def groupInsert (g : List (List Char × List IndentProblem)) (path : List Char)
    (p : IndentProblem) : List (List Char × List IndentProblem) :=
  match g with
  | [] => [(path, [p])]
  | (q, ps) :: rest =>
    if q = path then (q, ps ++ [p]) :: rest
    else (q, ps) :: groupInsert rest path p

/-- Loop body of `group_indentation_problems` (lines 56–84). -/
def groupIndentStep (sep : Char) (g : List (List Char × List IndentProblem))
    (prob : RawProblem) : List (List Char × List IndentProblem) :=
  if prob.codeValue ≠ some "indent" then g
  else
    let filePath := normalizeIndentResource sep (prob.resource.getD [])
    match parseIndentationMessage (prob.message.getD []) with
    | none => g
    | some (expected, found) =>
      groupInsert g filePath ⟨prob.startLineNumber, expected, found⟩

def groupIndentAux (sep : Char) (g : List (List Char × List IndentProblem)) :
    List RawProblem → List (List Char × List IndentProblem)
  | [] => g
  | prob :: rest => groupIndentAux sep (groupIndentStep sep g prob) rest

/-- Model of `group_indentation_problems(problems)` (lines 47–86). -/
def groupIndentationProblems (sep : Char) (problems : List RawProblem) :
    List (List Char × List IndentProblem) :=
  groupIndentAux sep [] problems

/-- Model of `len(line) - len(line.lstrip(' '))`. -/
def countLeadingSpaces (l : List Char) : Nat :=
  (l.takeWhile (· = ' ')).length

/-- Model of `line.lstrip(' ')`. -/
def lstripSpaces (l : List Char) : List Char :=
  l.dropWhile (· = ' ')

/-- Model of `fix_line_indentation` (lines 88–109): rewrite the leading spaces to
`expected` only when the current leading-space count equals `found`. -/
def fixLineIndentation (line : List Char) (expected found : Nat) : List Char :=
  if countLeadingSpaces line = found then
    List.replicate expected ' ' ++ lstripSpaces line
  else line

/-- A grouped problem whose line number is present, ready to apply. -/
structure IndentEdit where
  line : Int
  expected : Nat
  found : Nat
  deriving DecidableEq

/-- Extraction of the line numbers before sorting; `none` models the
`TypeError` raised (and caught by the enclosing `except`) when a grouped
problem's `startLineNumber` was missing (`None` is unordered /
incomparable to `1` in Python 3). -/
def extractEdits : List IndentProblem → Option (List IndentEdit)
  | [] => some []
  | p :: ps =>
    match p.line with
    | none => none
    | some l => (extractEdits ps).map (⟨l, p.expected, p.found⟩ :: ·)

/-- Stable descending insertion by line number: `e` goes after every
element with a line number `≥` its own... i.e. before the first strictly
smaller one, matching Python's stable `sorted(..., reverse=True)`. -/
def insertDesc (e : IndentEdit) : List IndentEdit → List IndentEdit
  | [] => [e]
  | x :: xs => if x.line ≤ e.line then e :: x :: xs else x :: insertDesc e xs

/-- Model of `sorted(problems, key=lambda p: p['line'], reverse=True)` (line 135). -/
def sortDesc : List IndentEdit → List IndentEdit
  | [] => []
  | e :: es => insertDesc e (sortDesc es)

/-- One iteration of the fixing loop (lines 138–149): in-range lines are
rewritten via `fix_line_indentation`, and `modified` is raised only when
the fixed line differs. -/
def applyIndentEdit (lines : List (List Char)) (modified : Bool)
    (e : IndentEdit) : List (List Char) × Bool :=
  if 1 ≤ e.line ∧ e.line ≤ (lines.length : Int) then
    if fixLineIndentation (lines.getD (e.line - 1).toNat []) e.expected e.found ≠
        lines.getD (e.line - 1).toNat [] then
      (lines.set (e.line - 1).toNat
        (fixLineIndentation (lines.getD (e.line - 1).toNat []) e.expected e.found),
       true)
    else (lines, modified)
  else (lines, modified)

def applyIndentEdits (lines : List (List Char)) (modified : Bool) :
    List IndentEdit → List (List Char) × Bool
  | [] => (lines, modified)
  | e :: es =>
    applyIndentEdits (applyIndentEdit lines modified e).1
      (applyIndentEdit lines modified e).2 es

/-- In-memory core of `fix_file_indentation` (lines 126–161) on the
decoded line list (terminators kept inside the lines, `newline=''`).
The result is `(content as lines, modified)`: when the body raises (a
missing line number), the `except` at lines 163–165 catches it, no write
happens and the file keeps its original content. -/
def fixFileIndentation (lines : List (List Char)) (problems : List IndentProblem) :
    List (List Char) × Bool :=
  match extractEdits problems with
  | none => (lines, false)
  | some es => applyIndentEdits lines false (sortDesc es)

/-- Model of `fix_file_indentation` at the byte level: `readlines` with
`newline=''` splits keeping terminators; the write (`newline=''` again)
is the plain concatenation of the lines. -/
def fixFileIndentationContent (content : List Char) (problems : List IndentProblem) :
    List Char × Bool :=
  let r := fixFileIndentation (splitKeepEnds content) problems
  (if r.2 then r.1.flatten else content, r.2)

/-! ### Run coordinators -/

/-- An element yielded by iterating the decoded diagnostics document:
either a JSON object (supporting `.get` and bracket access, decoded to
the scripts' problem record) or any other value, on which the scripts'
first attribute access raises an uncaught `AttributeError`. -/
inductive DiagElem (α : Type) where
  | entry (a : α)
  | nonDict
  deriving DecidableEq

/-- A decoded JSON document, as far as the scripts' iteration
(`for problem in problems`) can observe it: an array yields its
elements, an object yields its string (hence non-dict) keys, a string
yields its (non-dict) characters, and a scalar (number, boolean, null)
is not iterable. -/
inductive PyVal (α : Type) where
  | arr (elems : List (DiagElem α))
  | obj (keys : Nat)
  | str (chars : Nat)
  | scalar

/-- Python iteration over the decoded document; `none` models the
uncaught `TypeError` raised when iterating a scalar. -/
def PyVal.iterElems {α : Type} : PyVal α → Option (List (DiagElem α))
  | .arr elems => some elems
  | .obj keys => some (List.replicate keys DiagElem.nonDict)
  | .str chars => some (List.replicate chars DiagElem.nonDict)
  | .scalar => none

/-- The state of the diagnostics document as seen by the coordinators:
missing file, JSON that fails to decode, or a decoded value. -/
inductive DiagSource (α : Type) where
  | missing
  | invalidJson
  | parsed (v : PyVal α)

/-- Walk the iterated elements the way the scripts' loops do: a
non-dict element makes the loop raise `AttributeError` at its first
`.get` or bracket access (`none`, an uncaught crash); otherwise the loop
sees exactly the sequence of object entries. -/
def asEntries {α : Type} : List (DiagElem α) → Option (List α)
  | [] => some []
  | DiagElem.entry a :: rest => (asEntries rest).map (a :: ·)
  | DiagElem.nonDict :: _ => none

/-- A file system: association list from path to content. -/
def FS := List (List Char × List Char)

def fsLookup (fs : FS) (path : List Char) : Option (List Char) :=
  match fs with
  | [] => none
  | (q, c) :: rest => if q = path then some c else fsLookup rest path

def fsSet (fs : FS) (path : List Char) (content : List Char) : FS :=
  match fs with
  | [] => [(path, content)]
  | (q, c) :: rest =>
    if q = path then (q, content) :: rest else (q, c) :: fsSet rest path content

/-- Per-file step of `main()` in `fix_indentation.py` (lines 206–217):
missing files are only warned about; the file is rewritten only when
`fix_file_indentation` reports a modification. -/
def runFileIndent (fs : FS) (entry : List Char × List IndentProblem) : FS :=
  match fsLookup fs entry.1 with
  | none => fs
  | some content =>
    let r := fixFileIndentationContent content entry.2
    if r.2 then fsSet fs entry.1 r.1 else fs

/-- Body of `main()` of `fix_indentation.py` after a successful
`load_problems`: iterating a decoded scalar raises an uncaught
`TypeError`, a non-object element raises an uncaught `AttributeError` in
`group_indentation_problems` (both terminate the process with exit code
1 before any file is read); otherwise — including a decoded document of
the wrong shape that yields no elements, such as an empty JSON object —
the grouped fixes are applied and the script returns 0. -/
def runParsedIndent (sep : Char) (v : PyVal RawProblem) (fs : FS) : Nat × FS :=
  match v.iterElems with
  | none => (1, fs)
  | some elems =>
    match asEntries elems with
    | none => (1, fs)
    | some problems =>
      (0, (groupIndentationProblems sep problems).foldl runFileIndent fs)

/-- Model of `main()` of `fix_indentation.py`: `load_problems` exits
with code 1 on a missing file or invalid JSON (lines 40–45); a decoded
document is handled by `runParsedIndent`. -/
def mainIndent (sep : Char) (src : DiagSource RawProblem) (fs : FS) : Nat × FS :=
  match src with
  | .missing => (1, fs)
  | .invalidJson => (1, fs)
  | .parsed v => runParsedIndent sep v fs

/-- One `apply_fix` call at the file-system level (`use_new_syntax.py`
lines 36–59): a missing file is only reported; otherwise the content is
patched and written back only when the edit applies. -/
def applyFixFS (fs : FS) (fx : Fix) : FS :=
  match fsLookup fs fx.resource with
  | none => fs
  | some content =>
    match applyFixContent content fx with
    | some written => fsSet fs fx.resource written
    | none => fs

/-- Body of the `__main__` block of `use_new_syntax.py` after the
diagnostics JSON decodes: iterating a scalar or touching a non-object
element raises before `parse_fixes` returns (exit code 1), as does a
`KeyError` escaping `parse_fixes` — all before any file is written;
otherwise — including a decoded document of the wrong shape that yields
no elements, such as an empty JSON object — every parsed fix is applied
in document order and the script exits 0. -/
def runParsedTw (v : PyVal TwProblem) (fs : FS) : Nat × FS :=
  match v.iterElems with
  | none => (1, fs)
  | some elems =>
    match asEntries elems with
    | none => (1, fs)
    | some problems =>
      match parseFixes problems with
      | .error _ => (1, fs)
      | .ok fixes => (0, fixes.foldl applyFixFS fs)

/-- Model of the `__main__` block of `use_new_syntax.py` (lines 61–80):
a missing `problems.json` exits with code 1, invalid JSON raises an
uncaught `JSONDecodeError` (exit code 1); a decoded document is handled
by `runParsedTw`. -/
def mainTw (src : DiagSource TwProblem) (fs : FS) : Nat × FS :=
  match src with
  | .missing => (1, fs)
  | .invalidJson => (1, fs)
  | .parsed v => runParsedTw v fs

/-- Modelled from the spec (section 4.3): application of a file's fixes
in descending (line, column) order, the order the spec asserts the
engine uses.  Used only to compare the engine's actual order against the
spec's claimed order. -/
def insertFixDescSpec (f : Fix) : List Fix → List Fix
  | [] => [f]
  | x :: xs =>
    if x.line < f.line ∨ (x.line = f.line ∧ x.colStart ≤ f.colStart) then
      f :: x :: xs
    else x :: insertFixDescSpec f xs

/-- Modelled from the spec (section 4.3): stable descending sort by
(line, column_start). -/
def sortFixesDescSpec : List Fix → List Fix
  | [] => []
  | f :: fs => insertFixDescSpec f (sortFixesDescSpec fs)

/-- Modelled from the spec: run the fixes sorted in descending
(line, column_start) order. -/
def runFixesSortedDescSpec (content : List Char) (fxs : List Fix) : List Char :=
  runFixes content (sortFixesDescSpec fxs)

/-! ### Helper lemmas -/

/-- Python's `needle in hay` holds exactly when `needle` occurs as a
contiguous substring of `hay`. -/
theorem hasSub_iff (hay needle : List Char) :
    hasSub hay needle = true ↔ ∃ s t, s ++ needle ++ t = hay := by
  induction hay with
  | nil =>
    constructor
    · intro h
      rw [hasSub] at h
      split at h
      · rename_i heq
        simp only [List.take_nil] at heq
        exact ⟨[], [], by simp [← heq]⟩
      · simp at h
    · rintro ⟨s, t, hst⟩
      have hn : needle = [] := by
        cases s <;> cases needle <;> simp_all
      rw [hasSub]
      simp [hn]
  | cons c rest ih =>
    rw [hasSub]
    split
    · rename_i heq
      simp only [true_iff]
      exact ⟨[], (c :: rest).drop needle.length,
        by simpa [heq] using List.take_append_drop needle.length (c :: rest)⟩
    · rename_i hne
      rw [ih]
      constructor
      · rintro ⟨s, t, h⟩
        exact ⟨c :: s, t, by simp [h]⟩
      · rintro ⟨s, t, h⟩
        cases s with
        | nil =>
          exfalso
          apply hne
          simp only [List.nil_append] at h
          rw [← h, List.take_left]
        | cons a s =>
          simp only [List.cons_append] at h
          injection h with h1 h2
          exact ⟨s, t, h2⟩

theorem lstripSpaces_replicate_append (e : Nat) (l : List Char) :
    lstripSpaces (List.replicate e ' ' ++ l) = lstripSpaces l := by
  induction e with
  | zero => simp
  | succ n ih =>
    simp only [List.replicate_succ, lstripSpaces, List.cons_append,
      List.dropWhile_cons] at ih ⊢
    simp only [decide_eq_true_eq, if_pos rfl]
    exact ih

theorem countLeadingSpaces_lstrip (l : List Char) :
    countLeadingSpaces (lstripSpaces l) = 0 := by
  induction l with
  | nil => rfl
  | cons a l ih =>
    by_cases h : a = ' '
    · simpa [lstripSpaces, List.dropWhile_cons, h] using ih
    · simp [lstripSpaces, countLeadingSpaces, List.dropWhile_cons,
        List.takeWhile_cons, h]

theorem lstripSpaces_lstrip (l : List Char) :
    lstripSpaces (lstripSpaces l) = lstripSpaces l := by
  induction l with
  | nil => rfl
  | cons a l ih =>
    by_cases h : a = ' '
    · simpa [lstripSpaces, List.dropWhile_cons, h] using ih
    · simp [lstripSpaces, List.dropWhile_cons, h]

theorem countLeadingSpaces_replicate_append (e : Nat) (l : List Char)
    (h : countLeadingSpaces l = 0) :
    countLeadingSpaces (List.replicate e ' ' ++ l) = e := by
  rw [countLeadingSpaces] at h ⊢
  rw [List.takeWhile_append_of_pos
    (by intro a ha; simp [List.eq_of_mem_replicate ha])]
  simp [List.length_append, h]

theorem fixLineIndentation_lstrip (l : List Char) (e f : Nat) :
    lstripSpaces (fixLineIndentation l e f) = lstripSpaces l := by
  rw [fixLineIndentation]
  split
  · rw [lstripSpaces_replicate_append, lstripSpaces_lstrip]
  · rfl

/-- Re-fixing a fixed line is the identity: the source's leading-space
verification (`leading_spaces == found`) makes `fix_line_indentation`
idempotent on a single line for a single diagnostic. -/
theorem fixLineIndentation_idem (l : List Char) (e f : Nat) :
    fixLineIndentation (fixLineIndentation l e f) e f = fixLineIndentation l e f := by
  by_cases h : countLeadingSpaces l = f
  · have hfix : fixLineIndentation l e f = List.replicate e ' ' ++ lstripSpaces l := by
      rw [fixLineIndentation, if_pos h]
    have hcount : countLeadingSpaces (List.replicate e ' ' ++ lstripSpaces l) = e :=
      countLeadingSpaces_replicate_append e _ (countLeadingSpaces_lstrip l)
    by_cases he : e = f
    · rw [hfix, fixLineIndentation, if_pos (he ▸ hcount),
        lstripSpaces_replicate_append, lstripSpaces_lstrip]
    · rw [hfix, fixLineIndentation, if_neg (by rw [hcount]; exact he)]
  · have hl : fixLineIndentation l e f = l := by rw [fixLineIndentation, if_neg h]
    rw [hl]
    exact hl

theorem applyIndentEdit_length (ls : List (List Char)) (m : Bool) (e : IndentEdit) :
    (applyIndentEdit ls m e).1.length = ls.length := by
  rw [applyIndentEdit]
  split
  · split
    · simp
    · rfl
  · rfl

theorem applyIndentEdits_length (es : List IndentEdit) :
    ∀ (ls : List (List Char)) (m : Bool),
      (applyIndentEdits ls m es).1.length = ls.length := by
  induction es with
  | nil => intro ls m; rfl
  | cons e es ih =>
    intro ls m
    rw [applyIndentEdits, ih, applyIndentEdit_length]

theorem applyIndentEdit_getD_of_ne (ls : List (List Char)) (m : Bool)
    (e : IndentEdit) (i : Nat)
    (h : (1 ≤ e.line ∧ e.line ≤ (ls.length : Int)) → (e.line - 1).toNat ≠ i) :
    (applyIndentEdit ls m e).1.getD i [] = ls.getD i [] := by
  rw [applyIndentEdit]
  split
  · rename_i hc
    split
    · simp only [List.getD_eq_getElem?_getD, List.getElem?_set_ne (h hc)]
    · rfl
  · rfl

theorem applyIndentEdit_getD_self (ls : List (List Char)) (m : Bool)
    (e : IndentEdit) (hc : 1 ≤ e.line ∧ e.line ≤ (ls.length : Int)) :
    (applyIndentEdit ls m e).1.getD (e.line - 1).toNat [] =
      fixLineIndentation (ls.getD (e.line - 1).toNat []) e.expected e.found := by
  have hlt : (e.line - 1).toNat < ls.length := by omega
  rw [applyIndentEdit, if_pos hc]
  split
  · simp only [List.getD_eq_getElem?_getD, List.getElem?_set_self hlt,
      Option.getD_some]
  · rename_i hne
    simp only [ne_eq, not_not] at hne
    rw [hne]

theorem applyIndentEdits_getD_frame (es : List IndentEdit) :
    ∀ (ls : List (List Char)) (m : Bool) (i : Nat),
      (∀ e ∈ es, (1 ≤ e.line ∧ e.line ≤ (ls.length : Int)) → (e.line - 1).toNat ≠ i) →
      (applyIndentEdits ls m es).1.getD i [] = ls.getD i [] := by
  induction es with
  | nil => intro ls m i _; rfl
  | cons e es ih =>
    intro ls m i h
    rw [applyIndentEdits]
    rw [ih _ _ _ ?_]
    · exact applyIndentEdit_getD_of_ne ls m e i (h e (List.mem_cons_self e es))
    · intro e' he'
      rw [applyIndentEdit_length]
      exact h e' (List.mem_cons_of_mem e he')

theorem applyIndentEdit_getD_lstrip (ls : List (List Char)) (m : Bool)
    (e : IndentEdit) (i : Nat) :
    lstripSpaces ((applyIndentEdit ls m e).1.getD i []) =
      lstripSpaces (ls.getD i []) := by
  by_cases hc : 1 ≤ e.line ∧ e.line ≤ (ls.length : Int)
  · by_cases hi : (e.line - 1).toNat = i
    · subst hi
      rw [applyIndentEdit_getD_self ls m e hc, fixLineIndentation_lstrip]
    · rw [applyIndentEdit_getD_of_ne ls m e i (fun _ => hi)]
  · rw [applyIndentEdit, if_neg hc]

theorem applyIndentEdits_getD_lstrip (es : List IndentEdit) :
    ∀ (ls : List (List Char)) (m : Bool) (i : Nat),
      lstripSpaces ((applyIndentEdits ls m es).1.getD i []) =
        lstripSpaces (ls.getD i []) := by
  induction es with
  | nil => intro ls m i; rfl
  | cons e es ih =>
    intro ls m i
    rw [applyIndentEdits, ih, applyIndentEdit_getD_lstrip]

/-- Core idempotence: re-running the edit loop over a list of edits with
pairwise-distinct line numbers on its own output changes nothing and
never raises the modified flag. -/
theorem applyIndentEdits_idem (es : List IndentEdit)
    (h : es.Pairwise (fun a b => a.line ≠ b.line)) :
    ∀ (ls : List (List Char)) (m b : Bool),
      applyIndentEdits (applyIndentEdits ls m es).1 b es =
        ((applyIndentEdits ls m es).1, b) := by
  induction es with
  | nil => intro ls m b; rfl
  | cons e es ih =>
    intro ls m b
    obtain ⟨he, hp⟩ := List.pairwise_cons.mp h
    have hstep : applyIndentEdits ls m (e :: es) =
        applyIndentEdits (applyIndentEdit ls m e).1 (applyIndentEdit ls m e).2 es :=
      rfl
    have key : applyIndentEdit (applyIndentEdits ls m (e :: es)).1 b e =
        ((applyIndentEdits ls m (e :: es)).1, b) := by
      rw [hstep]
      by_cases hc : 1 ≤ e.line ∧ e.line ≤ (ls.length : Int)
      · have hlen :
            (((applyIndentEdits (applyIndentEdit ls m e).1 (applyIndentEdit ls m e).2
              es).1.length : Int)) = (ls.length : Int) := by
          rw [applyIndentEdits_length, applyIndentEdit_length]
        have hframe :
            (applyIndentEdits (applyIndentEdit ls m e).1 (applyIndentEdit ls m e).2
                es).1.getD (e.line - 1).toNat [] =
              (applyIndentEdit ls m e).1.getD (e.line - 1).toNat [] := by
          apply applyIndentEdits_getD_frame
          intro e' he' hc'
          have hne : e.line ≠ e'.line := he e' he'
          rw [applyIndentEdit_length] at hc'
          omega
        have hself :
            (applyIndentEdits (applyIndentEdit ls m e).1 (applyIndentEdit ls m e).2
                es).1.getD (e.line - 1).toNat [] =
              fixLineIndentation (ls.getD (e.line - 1).toNat [])
                e.expected e.found := by
          rw [hframe, applyIndentEdit_getD_self ls m e hc]
        rw [applyIndentEdit, if_pos (by rw [hlen]; exact hc)]
        rw [if_neg (by rw [hself, fixLineIndentation_idem]; simp)]
      · have hneg : ¬(1 ≤ e.line ∧ e.line ≤
            (((applyIndentEdits (applyIndentEdit ls m e).1 (applyIndentEdit ls m e).2
              es).1.length : Int))) := by
          rw [applyIndentEdits_length, applyIndentEdit_length]
          exact hc
        rw [applyIndentEdit, if_neg hneg]
    calc applyIndentEdits (applyIndentEdits ls m (e :: es)).1 b (e :: es)
        = applyIndentEdits
            (applyIndentEdit (applyIndentEdits ls m (e :: es)).1 b e).1
            (applyIndentEdit (applyIndentEdits ls m (e :: es)).1 b e).2 es := rfl
      _ = applyIndentEdits (applyIndentEdits ls m (e :: es)).1 b es := by rw [key]
      _ = ((applyIndentEdits ls m (e :: es)).1, b) := by
            rw [hstep]
            exact ih hp (applyIndentEdit ls m e).1 (applyIndentEdit ls m e).2 b

theorem insertDesc_perm (e : IndentEdit) (l : List IndentEdit) :
    List.Perm (insertDesc e l) (e :: l) := by
  induction l with
  | nil => exact List.Perm.refl _
  | cons x xs ih =>
    rw [insertDesc]
    split
    · exact List.Perm.refl _
    · exact (ih.cons x).trans (List.Perm.swap e x xs)

theorem sortDesc_perm (es : List IndentEdit) : List.Perm (sortDesc es) es := by
  induction es with
  | nil => exact List.Perm.refl _
  | cons e es ih => exact (insertDesc_perm e (sortDesc es)).trans (ih.cons e)

theorem insertDesc_pairwise (e : IndentEdit) (l : List IndentEdit)
    (h : l.Pairwise (fun a b => b.line ≤ a.line)) :
    (insertDesc e l).Pairwise (fun a b => b.line ≤ a.line) := by
  induction l with
  | nil => simp [insertDesc]
  | cons x xs ih =>
    obtain ⟨h1, h2⟩ := List.pairwise_cons.mp h
    rw [insertDesc]
    split
    · rename_i hx
      refine List.Pairwise.cons ?_ h
      intro y hy
      rcases List.mem_cons.mp hy with rfl | hy
      · exact hx
      · exact le_trans (h1 y hy) hx
    · rename_i hx
      refine List.Pairwise.cons ?_ (ih h2)
      intro y hy
      have hy2 : y = e ∨ y ∈ xs :=
        List.mem_cons.mp ((insertDesc_perm e xs).mem_iff.mp hy)
      rcases hy2 with rfl | hy2
      · omega
      · exact h1 y hy2

theorem sortDesc_pairwise (es : List IndentEdit) :
    (sortDesc es).Pairwise (fun a b => b.line ≤ a.line) := by
  induction es with
  | nil => exact List.Pairwise.nil
  | cons e es ih => exact insertDesc_pairwise e (sortDesc es) ih

theorem pyBound_of_nonneg (n : Nat) (i : Int) (h0 : 0 ≤ i) (h : i ≤ (n : Int)) :
    pyBound n i = i.toNat := by
  rw [pyBound, if_neg (by omega)]
  exact Nat.min_eq_left (by omega)

theorem pySliceTo_eq_take (s : List Char) (b : Int) (h0 : 0 ≤ b)
    (h : b ≤ (s.length : Int)) : pySliceTo s b = s.take b.toNat := by
  rw [pySliceTo, pyBound_of_nonneg s.length b h0 h]

theorem pySliceFrom_eq_drop (s : List Char) (a : Int) (h0 : 0 ≤ a)
    (h : a ≤ (s.length : Int)) : pySliceFrom s a = s.drop a.toNat := by
  rw [pySliceFrom, pyBound_of_nonneg s.length a h0 h]

theorem length_pySliceTo (s : List Char) (b : Int) (h0 : 0 ≤ b)
    (h : b ≤ (s.length : Int)) : (pySliceTo s b).length = b.toNat := by
  rw [pySliceTo_eq_take s b h0 h, List.length_take]
  exact Nat.min_eq_left (by omega)

theorem extractEdits_eq_none (ps : List IndentProblem)
    (h : ∃ p ∈ ps, p.line = none) : extractEdits ps = none := by
  induction ps with
  | nil => simp at h
  | cons p ps ih =>
    rw [extractEdits]
    obtain ⟨q, hq, hline⟩ := h
    rcases List.mem_cons.mp hq with rfl | hq
    · rw [hline]
    · cases hp : p.line with
      | none => rfl
      | some l => rw [ih ⟨q, hq, hline⟩]; rfl

/-! ### Claim theorems -/

/-- C1 counterexample: the canonical-rewrite applier's verification is
substring containment (`old_class in span`), not exact equality of the
span with the expected content — here the span at `[0, 3)` is `"xay"`,
which differs from the expected `"a"`, yet the edit is applied and the
line rewritten, contradicting the claim that it would be skipped. -/
theorem claim1_counterexample :
    applyFix ["xay".data] ⟨[], 0, 0, 3, "a".data, "b".data⟩ = some ["b".data] ∧
    pySlice "xay".data 0 3 ≠ "a".data := by
  decide

/-- C1 amended: with line and column bounds in range, the rewrite applier
applies an edit iff the expected content occurs as a *substring* of the
span `[column_start, column_end)` (and skips, leaving the file
untouched, iff it does not); the indentation applier's check is as
claimed: a line whose leading-space count differs from `found` is left
unchanged. -/
theorem claim1_amended :
    (∀ (lines : List (List Char)) (fx : Fix),
      0 ≤ fx.line → fx.line < (lines.length : Int) →
      fx.colStart < ((lines.getD fx.line.toNat []).length : Int) →
      fx.colEnd ≤ ((lines.getD fx.line.toNat []).length : Int) →
      ((∃ out, applyFix lines fx = some out) ↔
        ∃ s t, s ++ fx.oldClass ++ t =
          pySlice (lines.getD fx.line.toNat []) fx.colStart fx.colEnd)) ∧
    (∀ (l : List Char) (e f : Nat),
      countLeadingSpaces l ≠ f → fixLineIndentation l e f = l) := by
  constructor
  · intro lines fx h1 h2 h3 h4
    rw [applyFix, if_pos ⟨h1, h2⟩, if_pos ⟨h3, h4⟩, ← hasSub_iff]
    constructor
    · rintro ⟨out, hout⟩
      split at hout
      · assumption
      · exact absurd hout (by simp)
    · intro hs
      rw [if_pos hs]
      exact ⟨_, rfl⟩
  · intro l e f h
    rw [fixLineIndentation, if_neg h]

theorem claim1_witness :
    (∃ out, applyFix ["abcdef".data] ⟨[], 0, 1, 3, "bc".data, "z".data⟩ =
      some out) ∧
    fixLineIndentation "  x".data 4 3 = "  x".data :=
  ⟨(claim1_amended.1 ["abcdef".data] ⟨[], 0, 1, 3, "bc".data, "z".data⟩
      (by decide) (by decide) (by decide) (by decide)).mpr ⟨[], [], by decide⟩,
   claim1_amended.2 "  x".data 4 3 (by decide)⟩

/-- C2 counterexample: the canonical-rewrite applier does *not* preserve
line terminators — a CRLF file, after a successful patch, is written
back with LF terminators (`read_text` translates, and the write joins
with `'\n'`), contradicting the claim for this engine. -/
theorem claim2_counterexample :
    applyFixContent "old\r\nx\r\n".data ⟨[], 0, 0, 3, "old".data, "new".data⟩ =
      some "new\nx\n".data ∧
    '\r' ∈ "old\r\nx\r\n".data ∧ '\r' ∉ "new\nx\n".data := by
  decide

/-- C2 amended: the *indentation* applier preserves terminators exactly:
every output line agrees with the corresponding input line on everything
after the leading spaces (terminator bytes included, since `'\r'`/`'\n'`
are never leading spaces), and the line count is preserved.  The
canonical-rewrite applier, by contrast, rewrites CRLF to LF. -/
theorem claim2_amended :
    ∀ (lines : List (List Char)) (ps : List IndentProblem) (i : Nat),
      lstripSpaces ((fixFileIndentation lines ps).1.getD i []) =
        lstripSpaces (lines.getD i []) ∧
      (fixFileIndentation lines ps).1.length = lines.length := by
  intro lines ps i
  cases hex : extractEdits ps with
  | none =>
    have h : fixFileIndentation lines ps = (lines, false) := by
      rw [fixFileIndentation, hex]
    rw [h]
    exact ⟨rfl, rfl⟩
  | some es =>
    have h : fixFileIndentation lines ps =
        applyIndentEdits lines false (sortDesc es) := by
      rw [fixFileIndentation, hex]
    rw [h]
    exact ⟨applyIndentEdits_getD_lstrip (sortDesc es) lines false i,
      applyIndentEdits_length (sortDesc es) lines false⟩

/-- C10: whenever the canonical-rewrite applier writes a file back, the
written content ends with a newline (the write is
`'\n'.join(lines) + '\n'`), in particular appending one to a file that
previously had none. -/
theorem claim10_theorem :
    ∀ (content w : List Char) (fx : Fix),
      applyFixContent content fx = some w → ∃ pre, w = pre ++ ['\n'] := by
  intro content w fx h
  rw [applyFixContent] at h
  cases happ : applyFix (pySplitlines (universalNewlines content)) fx with
  | none => rw [happ] at h; simp at h
  | some out =>
    rw [happ] at h
    simp only [Option.map_some'] at h
    injection h with h2
    exact ⟨List.intercalate ['\n'] out, by rw [← h2, writeLines]⟩

theorem claim10_witness : ∃ pre, "Xb\n".data = pre ++ ['\n'] :=
  claim10_theorem "ab".data "Xb\n".data ⟨[], 0, 0, 1, "a".data, "X".data⟩
    (by decide)

/-- C3 counterexample: the canonical-rewrite script applies edits in
diagnostics-document order, not in descending column order — here the
second (right-hand) edit matched the original file but is skipped
because the first (left-hand) edit shifted its span, and the result
differs from what descending-order application (the spec's order,
`runFixesSortedDescSpec`) would produce. -/
theorem claim3_counterexample :
    runFixes "abc".data [⟨[], 0, 0, 1, "a".data, "XX".data⟩,
      ⟨[], 0, 2, 3, "c".data, "Y".data⟩] = "XXbc\n".data ∧
    runFixesSortedDescSpec "abc".data [⟨[], 0, 0, 1, "a".data, "XX".data⟩,
      ⟨[], 0, 2, 3, "c".data, "Y".data⟩] = "XXbY\n".data ∧
    (applyFixContent "abc".data ⟨[], 0, 2, 3, "c".data, "Y".data⟩).isSome
      = true ∧
    applyFixContent (runFix "abc".data ⟨[], 0, 0, 1, "a".data, "XX".data⟩)
      ⟨[], 0, 2, 3, "c".data, "Y".data⟩ = none ∧
    ("XXbc\n".data : List Char) ≠ "XXbY\n".data := by
  decide

/-- C3 amended: the indentation fixer does order each file's edit group
by descending line number (a stable sort, hence a permutation of the
group) before applying; the canonical-rewrite script applies edits in
diagnostics-document order with no sorting, so an earlier same-line
edit can invalidate a later one. -/
theorem claim3_amended :
    ∀ (lines : List (List Char)) (ps : List IndentProblem)
      (es : List IndentEdit),
      extractEdits ps = some es →
      fixFileIndentation lines ps = applyIndentEdits lines false (sortDesc es) ∧
      (sortDesc es).Pairwise (fun a b => b.line ≤ a.line) ∧
      List.Perm (sortDesc es) es := by
  intro lines ps es hex
  refine ⟨?_, sortDesc_pairwise es, sortDesc_perm es⟩
  rw [fixFileIndentation, hex]

theorem claim3_witness :
    fixFileIndentation ["  a".data] [⟨some 1, 0, 2⟩, ⟨some 3, 1, 1⟩] =
      applyIndentEdits ["  a".data] false (sortDesc [⟨1, 0, 2⟩, ⟨3, 1, 1⟩]) ∧
    (sortDesc [(⟨1, 0, 2⟩ : IndentEdit), ⟨3, 1, 1⟩]).Pairwise
      (fun a b => b.line ≤ a.line) ∧
    List.Perm (sortDesc [(⟨1, 0, 2⟩ : IndentEdit), ⟨3, 1, 1⟩])
      [⟨1, 0, 2⟩, ⟨3, 1, 1⟩] :=
  claim3_amended ["  a".data] [⟨some 1, 0, 2⟩, ⟨some 3, 1, 1⟩]
    [⟨1, 0, 2⟩, ⟨3, 1, 1⟩] (by decide)

/-- C4 counterexample: the engine is not idempotent — a canonical
rewrite whose replacement still contains the expected text in the span
re-fires on the patched file: the second run applies an edit
(`isSome`) and changes the content again. -/
theorem claim4_counterexample :
    runFix "abc".data ⟨[], 0, 0, 2, "ab".data, "abab".data⟩ = "ababc\n".data ∧
    (applyFixContent "ababc\n".data
      ⟨[], 0, 0, 2, "ab".data, "abab".data⟩).isSome = true ∧
    runFix "ababc\n".data ⟨[], 0, 0, 2, "ab".data, "abab".data⟩ =
      "abababc\n".data ∧
    ("abababc\n".data : List Char) ≠ "ababc\n".data := by
  decide

/-- C4 amended: the *indentation* applier is idempotent whenever the
file's diagnostics target pairwise-distinct lines: a second run on the
first run's output applies zero edits (modified flag stays `false`) and
leaves every line unchanged.  (With two diagnostics on one line, or for
the canonical-rewrite applier, a second run can apply further edits.) -/
theorem claim4_amended :
    ∀ (lines : List (List Char)) (ps : List IndentProblem)
      (es : List IndentEdit),
      extractEdits ps = some es →
      es.Pairwise (fun a b => a.line ≠ b.line) →
      fixFileIndentation (fixFileIndentation lines ps).1 ps =
        ((fixFileIndentation lines ps).1, false) := by
  intro lines ps es hex hd
  have hd2 : (sortDesc es).Pairwise (fun a b => a.line ≠ b.line) :=
    (List.Perm.pairwise_iff (fun hab => Ne.symm hab) (sortDesc_perm es)).mpr hd
  have h1 : fixFileIndentation lines ps =
      applyIndentEdits lines false (sortDesc es) := by
    rw [fixFileIndentation, hex]
  rw [h1, fixFileIndentation, hex]
  exact applyIndentEdits_idem (sortDesc es) hd2 lines false false

theorem claim4_witness :
    fixFileIndentation (fixFileIndentation ["    x".data] [⟨some 1, 2, 4⟩]).1
      [⟨some 1, 2, 4⟩] =
    ((fixFileIndentation ["    x".data] [⟨some 1, 2, 4⟩]).1, false) :=
  claim4_amended ["    x".data] [⟨some 1, 2, 4⟩] [⟨1, 2, 4⟩]
    (by decide) (by simp)

/-- C5: for every edit whose verification check passes, the rewrite
applier leaves every other line byte-identical and the target line holds
exactly the replacement at the edit position; the indentation applier
rewrites the target line to exactly `expected` spaces followed by the
space-stripped content, leaving every other line byte-identical. -/
theorem claim5_theorem :
    (∀ (lines out : List (List Char)) (fx : Fix),
      applyFix lines fx = some out →
      0 ≤ fx.colStart → fx.colStart ≤ fx.colEnd →
      out.length = lines.length ∧
      (∀ i, i ≠ fx.line.toNat → out.getD i [] = lines.getD i []) ∧
      ((out.getD fx.line.toNat []).drop fx.colStart.toNat).take
          fx.newClass.length = fx.newClass) ∧
    (∀ (ls : List (List Char)) (m : Bool) (e : IndentEdit),
      1 ≤ e.line → e.line ≤ (ls.length : Int) →
      countLeadingSpaces (ls.getD (e.line - 1).toNat []) = e.found →
      (applyIndentEdit ls m e).1.getD (e.line - 1).toNat [] =
        List.replicate e.expected ' ' ++
          lstripSpaces (ls.getD (e.line - 1).toNat []) ∧
      (∀ i, i ≠ (e.line - 1).toNat →
        (applyIndentEdit ls m e).1.getD i [] = ls.getD i [])) := by
  constructor
  · intro lines out fx happ hcs hle
    rw [applyFix] at happ
    split at happ
    · rename_i hrange
      split at happ
      · rename_i hcols
        split at happ
        · rename_i hsub
          injection happ with hout
          subst hout
          refine ⟨by simp, ?_, ?_⟩
          · intro i hi
            simp only [List.getD_eq_getElem?_getD,
              List.getElem?_set_ne (Ne.symm hi)]
          · have hidx : fx.line.toNat < lines.length := by omega
            rw [List.getD_eq_getElem?_getD, List.getElem?_set_self hidx,
              Option.getD_some]
            have hL1 :
                (pySliceTo (lines.getD fx.line.toNat []) fx.colStart).length =
                  fx.colStart.toNat :=
              length_pySliceTo _ _ hcs (le_of_lt hcols.1)
            rw [← hL1, List.append_assoc, List.drop_left, List.take_left]
        · simp at happ
      · simp at happ
    · simp at happ
  · intro ls m e h1 h2 hcount
    constructor
    · rw [applyIndentEdit_getD_self ls m e ⟨h1, h2⟩, fixLineIndentation,
        if_pos hcount]
    · intro i hi
      exact applyIndentEdit_getD_of_ne ls m e i (fun _ => Ne.symm hi)

theorem claim5_witness :
    ((["aZZZdef".data] : List (List Char)).getD 1 [] =
      ["abcdef".data].getD 1 []) ∧
    (((["aZZZdef".data] : List (List Char)).getD 0 []).drop 1).take 3 =
      "ZZZ".data ∧
    (applyIndentEdit ["      w".data] false ⟨1, 4, 6⟩).1.getD 0 [] =
      List.replicate 4 ' ' ++ lstripSpaces ("      w".data) := by
  have h := claim5_theorem.1 ["abcdef".data] ["aZZZdef".data]
    ⟨[], 0, 1, 3, "bc".data, "ZZZ".data⟩ (by decide) (by decide) (by decide)
  have h2 := claim5_theorem.2 ["      w".data] false ⟨1, 4, 6⟩
    (by decide) (by decide) (by decide)
  exact ⟨h.2.1 1 (by decide), h.2.2, h2.1⟩

/-- Replacing `'/'` by `'/'` (the POSIX `os.sep`) is the identity. -/
theorem map_sepSlash_id (l : List Char) :
    l.map (fun c => if c = '/' then '/' else c) = l := by
  induction l with
  | nil => rfl
  | cons a l ih => by_cases h : a = '/' <;> simp [h, ih]

/-- C6 counterexample: a diagnostics list whose top-level structure
loads, containing one matching entry with a missing `resource` field,
makes `parse_fixes` raise an uncaught `KeyError` (modelled as
`.error ()`), and the run dies with exit code 1 instead of skipping the
entry and reporting it in the summary. -/
theorem claim6_counterexample :
    parseFixes [⟨some "tailwindcss-intellisense",
      some "suggestCanonicalClasses", none, none, none, none, none⟩] =
      .error () ∧
    mainTw (.parsed (.arr [.entry ⟨some "tailwindcss-intellisense",
      some "suggestCanonicalClasses", none, none, none, none, none⟩])) [] =
      (1, []) :=
  ⟨rfl, rfl⟩

/-- C6 amended: the indentation fixer does recover locally — a grouped
problem with a missing line number makes the per-file body raise, the
enclosing `except` catches it and the file keeps its content with no
modification reported; entries of unrecognized kind or with unparseable
messages are simply dropped by the grouper.  The canonical-rewrite
parser, by contrast, crashes (uncaught `KeyError`) on a matching entry
with missing fields. -/
theorem claim6_amended :
    (∀ (lines : List (List Char)) (ps : List IndentProblem),
      (∃ p ∈ ps, p.line = none) →
      fixFileIndentation lines ps = (lines, false)) ∧
    (∀ (sep : Char) (g : List (List Char × List IndentProblem))
      (prob : RawProblem) (rest : List RawProblem),
      (prob.codeValue ≠ some "indent" ∨
        parseIndentationMessage (prob.message.getD []) = none) →
      groupIndentAux sep g (prob :: rest) = groupIndentAux sep g rest) := by
  constructor
  · intro lines ps h
    rw [fixFileIndentation, extractEdits_eq_none ps h]
  · intro sep g prob rest h
    have hstep : groupIndentStep sep g prob = g := by
      rw [groupIndentStep]
      rcases h with h | h
      · rw [if_pos h]
      · by_cases hcode : prob.codeValue ≠ some "indent"
        · rw [if_pos hcode]
        · rw [if_neg hcode, h]
    show groupIndentAux sep (groupIndentStep sep g prob) rest =
      groupIndentAux sep g rest
    rw [hstep]

theorem claim6_witness :
    fixFileIndentation ["a".data] [⟨none, 2, 4⟩] = (["a".data], false) ∧
    groupIndentAux '/' [] [⟨some "other", none, none, none⟩] =
      groupIndentAux '/' [] [] :=
  ⟨claim6_amended.1 ["a".data] [⟨none, 2, 4⟩] ⟨⟨none, 2, 4⟩, by simp, rfl⟩,
   claim6_amended.2 '/' [] ⟨some "other", none, none, none⟩ []
     (Or.inl (by simp))⟩

/-- A document yielding only non-dict elements crashes at the first one. -/
theorem asEntries_replicate_nonDict {α : Type} (k : Nat) :
    asEntries (List.replicate (k + 1) (DiagElem.nonDict : DiagElem α)) = none := by
  rw [List.replicate_succ]
  rfl

/-- On exit code 1 the indentation run leaves the file system untouched. -/
theorem runParsedIndent_untouched (sep : Char) (v : PyVal RawProblem) (fs : FS)
    (h : (runParsedIndent sep v fs).1 = 1) :
    (runParsedIndent sep v fs).2 = fs := by
  cases hv : v.iterElems with
  | none => simp only [runParsedIndent, hv]
  | some elems =>
    cases hae : asEntries elems with
    | none => simp only [runParsedIndent, hv, hae]
    | some ps => simp [runParsedIndent, hv, hae] at h

/-- On exit code 1 the canonical-rewrite run leaves the file system
untouched. -/
theorem runParsedTw_untouched (v : PyVal TwProblem) (fs : FS)
    (h : (runParsedTw v fs).1 = 1) : (runParsedTw v fs).2 = fs := by
  cases hv : v.iterElems with
  | none => simp only [runParsedTw, hv]
  | some elems =>
    cases hae : asEntries elems with
    | none => simp only [runParsedTw, hv, hae]
    | some ps =>
      cases hpf : parseFixes ps with
      | error e => simp only [runParsedTw, hv, hae, hpf]
      | ok fixes => simp [runParsedTw, hv, hae, hpf] at h

/-- C7 counterexample: a document that is valid JSON but not the
expected array of objects — the empty JSON object — decodes and is then
iterated vacuously by both scripts: the run completes with exit code 0
and no abort, contradicting the claim that a document that cannot be
parsed as the expected structured format always aborts with exit
code 1. -/
theorem claim7_counterexample :
    mainIndent '/' (DiagSource.parsed (PyVal.obj 0)) [("f".data, "x".data)] =
      (0, [("f".data, "x".data)]) ∧
    mainTw (DiagSource.parsed (PyVal.obj 0)) [("g".data, "y".data)] =
      (0, [("g".data, "y".data)]) :=
  ⟨rfl, rfl⟩

/-- C7 amended: a missing document and undecodable JSON abort both runs
with exit code 1, as do a decoded scalar (not iterable) and any decoded
document that yields a non-object element — an array containing one, a
non-empty object (its keys are strings), a non-empty string — in every
such case with no target file written.  But a structurally wrong
document that yields no elements (the empty JSON object, the empty
string) is processed vacuously: the run exits 0 and modifies nothing.
Moreover any run that ends with exit code 1 leaves the file system
untouched. -/
theorem claim7_amended :
    (∀ (sep : Char) (src : DiagSource RawProblem) (fs : FS),
      (src = DiagSource.missing ∨ src = DiagSource.invalidJson ∨
        src = DiagSource.parsed PyVal.scalar ∨
        (∃ elems, src = DiagSource.parsed (PyVal.arr elems) ∧
          asEntries elems = none) ∨
        (∃ k, src = DiagSource.parsed (PyVal.obj (k + 1))) ∨
        (∃ k, src = DiagSource.parsed (PyVal.str (k + 1)))) →
      mainIndent sep src fs = (1, fs)) ∧
    (∀ (src : DiagSource TwProblem) (fs : FS),
      (src = DiagSource.missing ∨ src = DiagSource.invalidJson ∨
        src = DiagSource.parsed PyVal.scalar ∨
        (∃ elems, src = DiagSource.parsed (PyVal.arr elems) ∧
          asEntries elems = none) ∨
        (∃ k, src = DiagSource.parsed (PyVal.obj (k + 1))) ∨
        (∃ k, src = DiagSource.parsed (PyVal.str (k + 1)))) →
      mainTw src fs = (1, fs)) ∧
    (∀ (sep : Char) (fs : FS),
      mainIndent sep (DiagSource.parsed (PyVal.obj 0)) fs = (0, fs) ∧
      mainTw (DiagSource.parsed (PyVal.obj 0)) fs = (0, fs)) ∧
    (∀ (sep : Char) (src : DiagSource RawProblem) (fs : FS),
      (mainIndent sep src fs).1 = 1 → (mainIndent sep src fs).2 = fs) ∧
    (∀ (src : DiagSource TwProblem) (fs : FS),
      (mainTw src fs).1 = 1 → (mainTw src fs).2 = fs) := by
  refine ⟨?_, ?_, ?_, ?_, ?_⟩
  · intro sep src fs h
    rcases h with rfl | rfl | rfl | ⟨elems, rfl, he⟩ | ⟨k, rfl⟩ | ⟨k, rfl⟩
    · rfl
    · rfl
    · rfl
    · simp only [mainIndent, runParsedIndent, PyVal.iterElems, he]
    · simp only [mainIndent, runParsedIndent, PyVal.iterElems,
        asEntries_replicate_nonDict]
    · simp only [mainIndent, runParsedIndent, PyVal.iterElems,
        asEntries_replicate_nonDict]
  · intro src fs h
    rcases h with rfl | rfl | rfl | ⟨elems, rfl, he⟩ | ⟨k, rfl⟩ | ⟨k, rfl⟩
    · rfl
    · rfl
    · rfl
    · simp only [mainTw, runParsedTw, PyVal.iterElems, he]
    · simp only [mainTw, runParsedTw, PyVal.iterElems,
        asEntries_replicate_nonDict]
    · simp only [mainTw, runParsedTw, PyVal.iterElems,
        asEntries_replicate_nonDict]
  · intro sep fs
    exact ⟨rfl, rfl⟩
  · intro sep src fs h
    cases src with
    | missing => rfl
    | invalidJson => rfl
    | parsed v => exact runParsedIndent_untouched sep v fs h
  · intro src fs h
    cases src with
    | missing => rfl
    | invalidJson => rfl
    | parsed v => exact runParsedTw_untouched v fs h

theorem claim7_witness :
    mainIndent '/' DiagSource.missing [("f".data, "x".data)] =
      (1, [("f".data, "x".data)]) ∧
    mainTw DiagSource.invalidJson [("g".data, "y".data)] =
      (1, [("g".data, "y".data)]) ∧
    mainIndent '/' (DiagSource.parsed (PyVal.arr [DiagElem.nonDict]))
      [("f".data, "x".data)] = (1, [("f".data, "x".data)]) :=
  ⟨claim7_amended.1 '/' DiagSource.missing [("f".data, "x".data)] (Or.inl rfl),
   claim7_amended.2.1 DiagSource.invalidJson [("g".data, "y".data)]
     (Or.inr (Or.inl rfl)),
   claim7_amended.1 '/' (DiagSource.parsed (PyVal.arr [DiagElem.nonDict]))
     [("f".data, "x".data)]
     (Or.inr (Or.inr (Or.inr (Or.inl ⟨[DiagElem.nonDict], rfl, rfl⟩))))⟩

/-- C8 counterexample: the indentation fixer's path normalizer handles
only the literal drive `K` — a URI-like path for drive `D` keeps its
leading slash (returned unchanged under the POSIX separator),
contradicting the claim for "any drive letter". -/
theorem claim8_counterexample :
    normalizeIndentResource '/' "/D:/a".data = "/D:/a".data ∧
    ("/D:/a".data : List Char) ≠ "D:/a".data := by
  decide

/-- C8 amended: the canonical-rewrite parser's normalizer handles any
ASCII drive letter, dropping the single leading slash and preserving
the drive, and leaves non-matching paths — POSIX absolute paths
included — unchanged; the indentation fixer's normalizer rewrites only
the literal `/K:` prefix (under the POSIX separator) and passes every
other path through unchanged. -/
theorem claim8_amended :
    (∀ (c : Char) (rest : List Char), c.isAlpha = true →
      normalizeTwResource ('/' :: c :: ':' :: '/' :: rest) =
        c :: ':' :: '/' :: rest) ∧
    (∀ r, matchesDrivePattern r = false → normalizeTwResource r = r) ∧
    (∀ rest, normalizeIndentResource '/' ('/' :: 'K' :: ':' :: rest) =
      'K' :: ':' :: rest) ∧
    (∀ r, r.take 3 ≠ ['/', 'K', ':'] → normalizeIndentResource '/' r = r) := by
  refine ⟨?_, ?_, ?_, ?_⟩
  · intro c rest h
    have hslash : ¬c = '/' := by
      intro hc
      subst hc
      exact absurd h (by decide)
    rw [normalizeTwResource,
      if_pos (show matchesDrivePattern ('/' :: c :: ':' :: '/' :: rest) = true
        from h)]
    simp [List.dropWhile_cons, hslash]
  · intro r h
    rw [normalizeTwResource]
    simp [h]
  · intro rest
    rw [normalizeIndentResource, if_pos (by simp), map_sepSlash_id]
    simp
  · intro r h
    rw [normalizeIndentResource, if_neg h, map_sepSlash_id]

theorem claim8_witness :
    normalizeTwResource "/d:/x".data = "d:/x".data ∧
    normalizeTwResource "/home/u/f".data = "/home/u/f".data ∧
    normalizeIndentResource '/' "/K:/p".data = "K:/p".data ∧
    normalizeIndentResource '/' "/home/u/f".data = "/home/u/f".data := by
  refine ⟨?_, ?_, ?_, ?_⟩
  · exact claim8_amended.1 'd' "x".data (by decide)
  · exact claim8_amended.2.1 "/home/u/f".data (by decide)
  · exact claim8_amended.2.2.1 "/p".data
  · exact claim8_amended.2.2.2 "/home/u/f".data (by decide)

/-- C9 counterexample: the boundary value `column_start == length(line)`
is *out* of range for the rewrite applier — the edit is skipped even
though the span `[2, 2)` is empty and the (empty) expected content
passes the content check, contradicting the claim that this boundary
value is in range. -/
theorem claim9_counterexample :
    applyFix ["ab".data] ⟨[], 0, 2, 2, [], "x".data⟩ = none ∧
    (2 : Int) = ((("ab".data : List Char)).length : Int) ∧
    pySlice "ab".data 2 2 = ([] : List Char) ∧
    hasSub (pySlice "ab".data 2 2) [] = true := by
  decide

/-- C9 amended: an edit whose line is outside `[1, n]`, or (for the
rewrite applier) whose `column_start ≥ length(line)` or
`column_end > length(line)`, is skipped with the file untouched —
`column_start == length(line)` being out of range — and the remaining
edits of the run are still attempted. -/
theorem claim9_amended :
    (∀ (lines : List (List Char)) (fx : Fix),
      (fx.line < 0 ∨ (lines.length : Int) ≤ fx.line) →
      applyFix lines fx = none) ∧
    (∀ (lines : List (List Char)) (fx : Fix),
      0 ≤ fx.line → fx.line < (lines.length : Int) →
      (((lines.getD fx.line.toNat []).length : Int) ≤ fx.colStart ∨
       ((lines.getD fx.line.toNat []).length : Int) < fx.colEnd) →
      applyFix lines fx = none) ∧
    (∀ (content : List Char) (f : Fix) (rest : List Fix),
      applyFixContent content f = none →
      runFixes content (f :: rest) = runFixes content rest) ∧
    (∀ (ls : List (List Char)) (m : Bool) (e : IndentEdit),
      (e.line < 1 ∨ (ls.length : Int) < e.line) →
      applyIndentEdit ls m e = (ls, m)) := by
  refine ⟨?_, ?_, ?_, ?_⟩
  · intro lines fx h
    rw [applyFix, if_neg (by omega)]
  · intro lines fx h0 h1 h
    rw [applyFix, if_pos ⟨h0, h1⟩, if_neg (by omega)]
  · intro content f rest h
    have hr : runFix content f = content := by
      rw [runFix, h, Option.getD_none]
    show List.foldl runFix (runFix content f) rest = runFixes content rest
    rw [hr]
    rfl
  · intro ls m e h
    rw [applyIndentEdit, if_neg (by omega)]

theorem claim9_witness :
    applyFix ["ab".data] ⟨[], 5, 0, 1, "a".data, "b".data⟩ = none ∧
    applyFix ["ab".data] ⟨[], 0, 0, 7, "a".data, "b".data⟩ = none ∧
    runFixes "ab".data [⟨[], 5, 0, 1, "a".data, "b".data⟩] =
      runFixes "ab".data [] ∧
    applyIndentEdit ["ab".data] false ⟨9, 2, 4⟩ = (["ab".data], false) := by
  refine ⟨?_, ?_, ?_, ?_⟩
  · exact claim9_amended.1 ["ab".data] ⟨[], 5, 0, 1, "a".data, "b".data⟩
      (Or.inr (by decide))
  · exact claim9_amended.2.1 ["ab".data] ⟨[], 0, 0, 7, "a".data, "b".data⟩
      (by decide) (by decide) (Or.inr (by decide))
  · exact claim9_amended.2.2.1 "ab".data ⟨[], 5, 0, 1, "a".data, "b".data⟩ []
      (by decide)
  · exact claim9_amended.2.2.2 ["ab".data] false ⟨9, 2, 4⟩ (Or.inr (by decide))


end GroundCTRL
